import Mathlib

/-!
Verification of the composition-and-reordering core of `Flipbook-Creator.py`.

The development shallowly embeds the state of `ImageGridWidget` (the sequence
manager: ordered image list, selection set, bounded undo/redo history) and the
pure parts of `FlipbookApp` (grid auto-sizing, the export compositor's cell
placement, and output-format selection).  Python strings are modelled as
`List Char`; Python `int` values that can be negative are modelled as `ℤ`;
a Python `set` of indices is modelled as a duplicate-free `List ℤ` (set
membership, size and sorted iteration are the only observations the source
makes of it, so list order is irrelevant to every statement proved below).
-/

namespace Flipbook

/-- Model of `str.lower` on a single character (ASCII range, which is all the
source ever feeds it: file extensions). -/
def lowerChar (c : Char) : Char :=
  if 'A' ≤ c ∧ c ≤ 'Z' then Char.ofNat (c.toNat + 32) else c

/-- Model of `str.lower`. -/
def pyLower (s : List Char) : List Char :=
  s.map lowerChar

/-- Model of `indices_str.split(',')`: Python's `''.split(',') == ['']`,
and separators delimit (possibly empty) fields. -/
def splitOnComma : List Char → List (List Char)
  | [] => [[]]
  | c :: cs =>
    if c = ',' then [] :: splitOnComma cs
    else
      match splitOnComma cs with
      | [] => [[c]]
      | t :: ts => (c :: t) :: ts

/-- Decimal digit value of a character, `none` for non-digits. -/
def digitVal (c : Char) : Option ℕ :=
  if '0' ≤ c ∧ c ≤ '9' then some (c.toNat - 48) else none

/-- Value of a nonempty all-digit string, `none` otherwise. -/
def digitsVal (s : List Char) : Option ℕ :=
  s.foldl
    (fun acc c =>
      match acc, digitVal c with
      | some n, some d => some (n * 10 + d)
      | _, _ => none)
    (if s = [] then none else some 0)

/-- Model of Python `int(s)` on the strings the drag payload can contain:
an optional leading minus sign followed by decimal digits; `none` models the
`ValueError` raised on anything else (in particular on the empty string). -/
def pyToInt : List Char → Option ℤ
  | '-' :: rest => (digitsVal rest).map (fun n => -(n : ℤ))
  | s => (digitsVal s).map (fun n => (n : ℤ))

/-- Insert into a list sorted in descending order. -/
def insertDesc (x : ℤ) : List ℤ → List ℤ
  | [] => [x]
  | y :: ys => if y < x then x :: y :: ys else y :: insertDesc x ys

/-- Model of `sorted(l, reverse=True)`. -/
def sortDesc : List ℤ → List ℤ
  | [] => []
  | x :: xs => insertDesc x (sortDesc xs)

/-- Model of Python `list.insert(i, x)`: a negative index counts from the end
(clamped at 0), an index past the end appends. -/
def pyInsert (l : List α) (i : ℤ) (x : α) : List α :=
  let j : ℕ := if i < 0 then ((l.length : ℤ) + i).toNat else min i.toNat l.length
  l.insertIdx j x

/-- Model of Python `set.add` on the duplicate-free-list representation. -/
def pyAdd (l : List ℤ) (x : ℤ) : List ℤ :=
  if x ∈ l then l else l ++ [x]

/-- State of `ImageGridWidget`: the ordered image list, the selection set with
its range anchor, and the two history stacks with their cap (`max_history`,
initialised to 50).  The entry type is abstract: the source stores
`(pixmap, filename, full_path)` triples and never inspects them here. -/
structure GridState (α : Type) where
  images : List α
  selected : List ℤ
  lastSelected : Option ℤ
  history : List (List α)
  redoStack : List (List α)
  maxHistory : ℕ
  deriving Repr, DecidableEq

variable {α : Type}

/-- `save_state`: push a snapshot of the image order, clear the redo stack,
and drop the oldest undo entry if the cap is exceeded (`history.pop(0)`). -/
def save_state (s : GridState α) : GridState α :=
  let h := s.history ++ [s.images]
  let h := if s.maxHistory < h.length then h.drop 1 else h
  { s with history := h, redoStack := [] }

/-- `undo`: pop the newest undo snapshot into `images`, pushing the current
order onto the redo stack; clears the selection and anchor.  No-op when the
history is empty ("Nothing to undo"). -/
def undo (s : GridState α) : GridState α :=
  match s.history.getLast? with
  | none => s
  | some prev =>
    { s with
      redoStack := s.redoStack ++ [s.images]
      images := prev
      history := s.history.dropLast
      selected := []
      lastSelected := none }

/-- `redo`: inverse of `undo`, popping from the redo stack. -/
def redo (s : GridState α) : GridState α :=
  match s.redoStack.getLast? with
  | none => s
  | some nxt =>
    { s with
      history := s.history ++ [s.images]
      images := nxt
      redoStack := s.redoStack.dropLast
      selected := []
      lastSelected := none }

/-- `add_images`: replace the whole list, clearing selection, anchor and both
history stacks (fresh folder load). -/
def add_images (s : GridState α) (xs : List α) : GridState α :=
  { s with
    images := xs
    selected := []
    lastSelected := none
    history := []
    redoStack := [] }

/-- `append_images`: snapshot then extend; a complete no-op on an empty
argument list. -/
def append_images (s : GridState α) (xs : List α) : GridState α :=
  match xs with
  | [] => s
  | _ :: _ =>
    let s1 := save_state s
    { s1 with images := s1.images ++ xs }

/-- `clear_selection`. -/
def clear_selection (s : GridState α) : GridState α :=
  { s with selected := [] }

/-- `select_single`: replace the selection with `{index}` and set the anchor;
the source performs no bounds check on the set itself (only the thumbnail
highlight is guarded by `index < len(thumbnails)`). -/
def select_single (s : GridState α) (index : ℤ) : GridState α :=
  { s with selected := [index], lastSelected := some index }

/-- `toggle_selection`: add or remove `index`, always updating the anchor;
again with no bounds check on the set. -/
def toggle_selection (s : GridState α) (index : ℤ) : GridState α :=
  { s with
    selected :=
      if index ∈ s.selected then s.selected.erase index
      else s.selected ++ [index]
    lastSelected := some index }

/-- `select_range`: with no anchor, degrade to `select_single`; otherwise add
the inclusive span between the anchor and `index` to the selection (the
anchor itself is not moved). -/
def select_range (s : GridState α) (index : ℤ) : GridState α :=
  match s.lastSelected with
  | none => select_single s index
  | some last =>
    let start := min last index
    let stop := max last index
    { s with
      selected :=
        (List.range (stop + 1 - start).toNat).foldl
          (fun acc k => pyAdd acc (start + k)) s.selected }

/-- `delete_selected`: no-op on an empty selection; otherwise snapshot, pop
the selected indices in descending order (each guarded by
`0 <= idx < len(images)` against the shrinking list), then clear selection
and anchor. -/
def delete_selected (s : GridState α) : GridState α :=
  if s.selected = [] then s
  else
    let s1 := save_state s
    let imgs :=
      (sortDesc s.selected).foldl
        (fun acc idx =>
          if 0 ≤ idx ∧ idx < (acc.length : ℤ) then acc.eraseIdx idx.toNat
          else acc)
        s1.images
    { s1 with images := imgs, selected := [], lastSelected := none }

/-- Body of `handle_drop` after the drag payload has parsed: sort the source
indices descending, extract the addressed entries, remove them (decrementing
`target_index` once for every removed index below its current value), then
insert the extracted entries at the adjusted target — each `insert` at the
same position, iterating over the extracted list reversed — and finally make
the selection the range of positions `target_index + i`. -/
def applyParsed (s : GridState α) (parsed : List ℤ) (target : ℤ) : GridState α :=
  let sources := sortDesc parsed
  let toMove :=
    sources.filterMap
      (fun idx =>
        if 0 ≤ idx ∧ idx < (s.images.length : ℤ) then s.images[idx.toNat]?
        else none)
  let removed :=
    sources.foldl
      (fun (p : List α × ℤ) idx =>
        if 0 ≤ idx ∧ idx < (p.1.length : ℤ) then
          (p.1.eraseIdx idx.toNat, if idx < p.2 then p.2 - 1 else p.2)
        else p)
      (s.images, target)
  let imgs := toMove.reverse.foldl (fun acc img => pyInsert acc removed.2 img) removed.1
  let sel := (List.range toMove.length).foldl (fun acc i => pyAdd acc (removed.2 + i)) []
  { s with images := imgs, selected := sel }

/-- `handle_drop`: the whole body runs inside `try`; `save_state` executes
first, then the payload is split on commas and parsed with `int`.  A parse
failure (e.g. the empty payload, since `int('')` raises) lands in the
`except` arm having already pushed the snapshot and cleared the redo stack. -/
def handle_drop (s : GridState α) (indicesStr : List Char) (target : ℤ) : GridState α :=
  let s1 := save_state s
  match (splitOnComma indicesStr).mapM pyToInt with
  | none => s1
  | some parsed => applyParsed s1 parsed target

/-- `math.ceil(math.sqrt(n))` (the float square root is correctly rounded, so
its ceiling agrees with the exact integer ceiling at every count the
application can hold). -/
def ceilSqrt (n : ℕ) : ℕ :=
  if Nat.sqrt n * Nat.sqrt n = n then Nat.sqrt n else Nat.sqrt n + 1

/-- The `while (cols - 1) * rows >= image_count: cols -= 1` loop of
`get_min_grid_size`, structurally recursive on the current column count. -/
def reduceCols (r n : ℕ) : ℕ → ℕ
  | 0 => 0
  | c + 1 => if n ≤ c * r then reduceCols r n c else c + 1

/-- `FlipbookApp.get_min_grid_size`: `(1, 1)` on an empty sequence, otherwise
`rows = ceil(sqrt(count))`, `cols` initialised to `rows` and reduced while one
fewer column still fits every image; returns the pair `(rows, cols)`. -/
def get_min_grid_size (n : ℕ) : ℕ × ℕ :=
  if n = 0 then (1, 1)
  else
    let rows := ceilSqrt n
    (rows, reduceCols rows n rows)

/-- `math.ceil(a / b)` for the positive integer operands the source divides. -/
def ceilDiv (a b : ℕ) : ℕ :=
  (a + b - 1) / b

/-- State of the `FlipbookApp` pieces the claims touch: the grid widget plus
the two spin-box values (the windowing system's residual clamping behaviour
is a GUI-host concern outside the specified core; the spin boxes are modelled
as the plain values the wrappers assign). -/
structure AppState (α : Type) where
  grid : GridState α
  columnsInput : ℕ
  rowsInput : ℕ
  deriving Repr, DecidableEq

/-- `update_grid_constraints`: on a nonempty sequence raise each spin box to
`ceil(count / other-axis)` so the grid always holds every image; an early
return on an empty sequence. -/
def update_grid_constraints (a : AppState α) : AppState α :=
  if a.grid.images.length = 0 then a
  else
    let n := a.grid.images.length
    let minRows := ceilDiv n a.columnsInput
    let minCols := ceilDiv n a.rowsInput
    { a with
      columnsInput := max a.columnsInput minCols
      rowsInput := max a.rowsInput minRows }

/-- The auto-sizing tail every wrapper runs:
`cols, rows = self.get_min_grid_size()` — note the swapped unpacking of the
helper's `(rows, cols)` return — then `columns_input.setValue(cols)`,
`rows_input.setValue(rows)`, `update_grid_constraints()`. -/
def applyAutoGrid (a : AppState α) : AppState α :=
  let rc := get_min_grid_size a.grid.images.length
  update_grid_constraints { a with columnsInput := rc.1, rowsInput := rc.2 }

/-- `FlipbookApp.undo`: grid undo, then auto-size. -/
def app_undo (a : AppState α) : AppState α :=
  applyAutoGrid { a with grid := undo a.grid }

/-- `FlipbookApp.redo`: grid redo, then auto-size. -/
def app_redo (a : AppState α) : AppState α :=
  applyAutoGrid { a with grid := redo a.grid }

/-- `FlipbookApp.delete_selected_images`: grid delete, then auto-size. -/
def app_delete_selected_images (a : AppState α) : AppState α :=
  applyAutoGrid { a with grid := delete_selected a.grid }

/-- `FlipbookApp.add_images` after decoding: with a nonempty decoded batch,
append then auto-size; nothing happens on an empty batch. -/
def app_add_images (a : AppState α) (xs : List α) : AppState α :=
  match xs with
  | [] => a
  | _ :: _ => applyAutoGrid { a with grid := append_images a.grid xs }

/-- `FlipbookApp.select_folder` after decoding: with a nonempty file list,
replace the whole sequence then auto-size. -/
def app_select_folder (a : AppState α) (xs : List α) : AppState α :=
  match xs with
  | [] => a
  | _ :: _ => applyAutoGrid { a with grid := add_images a.grid xs }

/-- A decoded source image as the compositor sees it: its pixel dimensions
plus an opaque identity for the pixel content. -/
structure Pixmap where
  width : ℕ
  height : ℕ
  pid : ℕ
  deriving Repr, DecidableEq

/-- `pixmap.scaled(w, h, IgnoreAspectRatio, SmoothTransformation)`: same
content stretched to exactly the requested size. -/
def scaledTo (p : Pixmap) (w h : ℕ) : Pixmap :=
  { width := w, height := h, pid := p.pid }

/-- The cell-drawing loop of `export_flipbook`: iterate the sequence with its
index, stop at the first index `≥ columns * rows`, and draw each entry —
stretched to the cell when its size differs — at
`(idx % columns * cell_width, idx / columns * cell_height)`.
Each element of the result is `(x, y, drawn pixmap)`. -/
def composeCells (cols rows cellW cellH : ℕ) : List Pixmap → ℕ → List (ℕ × ℕ × Pixmap)
  | [], _ => []
  | p :: ps, idx =>
    if cols * rows ≤ idx then []
    else
      let x := idx % cols * cellW
      let y := idx / cols * cellH
      let drawn :=
        if p.width ≠ cellW ∨ p.height ≠ cellH then scaledTo p cellW cellH else p
      (x, y, drawn) :: composeCells cols rows cellW cellH ps (idx + 1)

/-- Result of the pure part of `export_flipbook`: the canvas dimensions, the
drawn cells, and the final output dimensions after the optional whole-canvas
rescale. -/
structure ComposeResult where
  canvasW : ℕ
  canvasH : ℕ
  cells : List (ℕ × ℕ × Pixmap)
  outW : ℕ
  outH : ℕ
  deriving Repr, DecidableEq

/-- The compose pipeline of `export_flipbook` (with `scalePercent` the slider
value): `none` on an empty sequence ("No images to export"), otherwise cell
size from the first entry, canvas `cell * grid`, the drawing loop, and a
final stretch to `int(size * scale / 100)` when that differs. -/
def export_compose (images : List Pixmap) (cols rows scalePercent : ℕ) :
    Option ComposeResult :=
  match images with
  | [] => none
  | p0 :: _ =>
    let cellW := p0.width
    let cellH := p0.height
    let w := cellW * cols
    let h := cellH * rows
    some
      { canvasW := w
        canvasH := h
        cells := composeCells cols rows cellW cellH images 0
        outW := w * scalePercent / 100
        outH := h * scalePercent / 100 }

/-- How a pixel buffer is serialised at the end of `export_flipbook`:
the chosen container format, the fixed JPEG quality when present, and whether
the TGA path's BGRA byte-order reinterpretation of the RGBA buffer is
applied before encoding. -/
structure EncodeSpec where
  format : List Char
  quality : Option ℕ
  bgraSwap : Bool
  deriving Repr, DecidableEq

/-- The `file_path.lower().endswith(...)` chain of `export_flipbook`,
ending in the `else` arm that defaults to PNG. -/
def chooseEncode (filePath : List Char) : EncodeSpec :=
  let p := pyLower filePath
  if ['.', 'j', 'p', 'g'].isSuffixOf p ∨ ['.', 'j', 'p', 'e', 'g'].isSuffixOf p then
    ⟨['J', 'P', 'E', 'G'], some 95, false⟩
  else if ['.', 'p', 'n', 'g'].isSuffixOf p then
    ⟨['P', 'N', 'G'], none, false⟩
  else if ['.', 'w', 'e', 'b', 'p'].isSuffixOf p then
    ⟨['W', 'E', 'B', 'P'], none, false⟩
  else if ['.', 'b', 'm', 'p'].isSuffixOf p then
    ⟨['B', 'M', 'P'], none, false⟩
  else if ['.', 't', 'i', 'f', 'f'].isSuffixOf p ∨ ['.', 't', 'i', 'f'].isSuffixOf p then
    ⟨['T', 'I', 'F', 'F'], none, false⟩
  else if ['.', 't', 'g', 'a'].isSuffixOf p then
    ⟨['T', 'G', 'A'], none, true⟩
  else
    ⟨['P', 'N', 'G'], none, false⟩

/-- The byte-order swap the TGA path performs on the pixel buffer: each RGBA
pixel is read in BGRA channel order (red and blue swapped). -/
def rgbaToBgra : List (ℕ × ℕ × ℕ × ℕ) → List (ℕ × ℕ × ℕ × ℕ)
  | [] => []
  | (r, g, b, a) :: rest => (b, g, r, a) :: rgbaToBgra rest

/-- The combined history-size invariant: undo and redo entries together never
outnumber the cap.  It is the inductive strengthening of "the undo stack
holds at most `max_history` snapshots" (which `redo`, pushing onto the undo
stack without trimming, would not preserve on its own). -/
def HistInv (s : GridState α) : Prop :=
  s.history.length + s.redoStack.length ≤ s.maxHistory

/-- The selection-validity invariant of the spec's data model: every selected
index addresses a current sequence position. -/
def SelInv (s : GridState α) : Prop :=
  ∀ j ∈ s.selected, 0 ≤ j ∧ j < (s.images.length : ℤ)

/-- The pair of facts every auto-sizing caller establishes: both spin boxes
hold the helper's components in swapped order, so applied columns ≥ applied
rows. -/
def autoSizedSwapped (b : AppState α) : Prop :=
  b.columnsInput = (get_min_grid_size b.grid.images.length).1 ∧
  b.rowsInput = (get_min_grid_size b.grid.images.length).2 ∧
  b.rowsInput ≤ b.columnsInput

/-- A 64×64 source image with content identity `i`. -/
def cell64 (i : ℕ) : Pixmap :=
  ⟨64, 64, i⟩

/-- A two-entry sequence with both entries selected, as a drag source. -/
def gridAB : GridState ℕ :=
  ⟨[10, 20], [0, 1], none, [], [], 50⟩

/-- A five-entry sequence with entries 1 and 2 selected. -/
def gridMid : GridState ℕ :=
  ⟨[0, 1, 2, 3, 4], [1, 2], none, [], [], 50⟩

/-- A one-entry sequence with a nonempty redo stack. -/
def gridDrop : GridState ℕ :=
  ⟨[7], [0], some 0, [], [[1]], 50⟩

/-- The five-entry sequence `[A, B, C, D, E]` (as `0..4`) with indices 1 and
3 selected. -/
def gridDelete : GridState ℕ :=
  ⟨[0, 1, 2, 3, 4], [1, 3], some 3, [], [], 50⟩

/-- A one-entry sequence with nothing selected. -/
def gridOne : GridState ℕ :=
  ⟨[7], [], none, [], [], 50⟩

/-- The application state at session start. -/
def emptyApp : AppState ℕ :=
  ⟨⟨[], [], none, [], [], 50⟩, 1, 1⟩

/-- Seventeen decoded images. -/
def seventeenImages : List ℕ :=
  [0, 1, 2, 3, 4, 5, 6, 7, 8, 9, 10, 11, 12, 13, 14, 15, 16]

lemma sqrt_eq_of_bounds (r n : ℕ) (h1 : r * r ≤ n) (h2 : n < (r + 1) * (r + 1)) :
    Nat.sqrt n = r := by
  have ha : r ≤ Nat.sqrt n := Nat.le_sqrt.mpr h1
  have hb : Nat.sqrt n < r + 1 := Nat.sqrt_lt.mpr h2
  omega

lemma ceilSqrt_sq_ge (n : ℕ) : n ≤ ceilSqrt n * ceilSqrt n := by
  unfold ceilSqrt
  split
  · omega
  · have h := Nat.lt_succ_sqrt n
    simp only [Nat.succ_eq_add_one] at h
    exact le_of_lt h

lemma ceilSqrt_pred_sq_lt (n : ℕ) (hn : 1 ≤ n) :
    (ceilSqrt n - 1) * (ceilSqrt n - 1) < n := by
  unfold ceilSqrt
  split
  · rename_i h
    have hpos : 0 < Nat.sqrt n := Nat.sqrt_pos.mpr hn
    calc (Nat.sqrt n - 1) * (Nat.sqrt n - 1)
        < Nat.sqrt n * Nat.sqrt n := by
          exact Nat.mul_lt_mul_of_lt_of_le (by omega) (by omega) hpos
      _ = n := h
  · rename_i h
    have hle : Nat.sqrt n * Nat.sqrt n ≤ n := Nat.sqrt_le n
    have : Nat.sqrt n + 1 - 1 = Nat.sqrt n := by omega
    rw [this]
    omega

lemma reduceCols_le (r n : ℕ) : ∀ c, reduceCols r n c ≤ c := by
  intro c
  induction c with
  | zero => simp [reduceCols]
  | succ c ih =>
    unfold reduceCols
    split
    · exact le_trans ih (by omega)
    · exact le_refl _

lemma reduceCols_mul_ge (r n : ℕ) : ∀ c, n ≤ c * r → n ≤ reduceCols r n c * r := by
  intro c
  induction c with
  | zero => intro h; simpa [reduceCols] using h
  | succ c ih =>
    intro h
    unfold reduceCols
    split
    · rename_i hc
      exact ih hc
    · exact h

lemma reduceCols_pred_mul_lt (r n : ℕ) (hn : 1 ≤ n) :
    ∀ c, (reduceCols r n c - 1) * r < n := by
  intro c
  induction c with
  | zero => simpa [reduceCols] using hn
  | succ c ih =>
    unfold reduceCols
    split
    · exact ih
    · rename_i hc
      have : c + 1 - 1 = c := by omega
      rw [this]
      omega

lemma ceilDiv_le_of_le_mul (a b c : ℕ) (hb : 1 ≤ b) (h : a ≤ c * b) :
    ceilDiv a b ≤ c := by
  unfold ceilDiv
  rw [Nat.div_le_iff_le_mul_add_pred (by omega)]
  have hcomm : c * b = b * c := Nat.mul_comm c b
  omega

lemma getLast?_save_state (s : GridState α) (hc : 1 ≤ s.maxHistory) :
    (save_state s).history.getLast? = some s.images := by
  unfold save_state
  simp only
  split
  · rename_i h
    rcases hh : s.history with _ | ⟨y, t⟩
    · rw [hh] at h
      simp at h
      omega
    · simp [List.getLast?_concat]
  · exact List.getLast?_concat _

lemma save_state_history_len (s : GridState α) (h : HistInv s) :
    (save_state s).history.length ≤ s.maxHistory := by
  unfold HistInv at h
  unfold save_state
  simp only
  split
  · rename_i hlen
    simp only [List.length_drop, List.length_append, List.length_singleton]
    omega
  · rename_i hlen
    simp only [List.length_append, List.length_singleton]
    simp only [List.length_append, List.length_singleton] at hlen
    omega

lemma grid_mul_ge (n : ℕ) (hn : 1 ≤ n) :
    n ≤ (get_min_grid_size n).1 * (get_min_grid_size n).2 := by
  unfold get_min_grid_size
  rw [if_neg (by omega)]
  simpa [Nat.mul_comm] using reduceCols_mul_ge (ceilSqrt n) n (ceilSqrt n) (ceilSqrt_sq_ge n)

lemma grid_cols_le_rows (n : ℕ) :
    (get_min_grid_size n).2 ≤ (get_min_grid_size n).1 := by
  unfold get_min_grid_size
  split
  · exact le_refl 1
  · exact reduceCols_le _ _ _

lemma grid_rows_pos (n : ℕ) (hn : 1 ≤ n) : 1 ≤ (get_min_grid_size n).1 := by
  have h := grid_mul_ge n hn
  by_contra hc
  have : (get_min_grid_size n).1 = 0 := by omega
  rw [this] at h
  simp at h
  omega

lemma grid_cols_pos (n : ℕ) (hn : 1 ≤ n) : 1 ≤ (get_min_grid_size n).2 := by
  have h := grid_mul_ge n hn
  by_contra hc
  have : (get_min_grid_size n).2 = 0 := by omega
  rw [this] at h
  simp at h
  omega

lemma grid_pred_lt (n : ℕ) (hn : 1 ≤ n) :
    ((get_min_grid_size n).1 - 1) * (get_min_grid_size n).2 < n := by
  unfold get_min_grid_size
  rw [if_neg (by omega)]
  show (ceilSqrt n - 1) * reduceCols (ceilSqrt n) n (ceilSqrt n) < n
  set r := ceilSqrt n with hr
  set c := reduceCols r n r with hcdef
  have hcr : c ≤ r := reduceCols_le _ _ _
  rcases eq_or_lt_of_le hcr with heq | hlt
  · have h := reduceCols_pred_mul_lt r n hn r
    rw [← hcdef] at h
    rw [heq] at h ⊢
    exact h
  · have hle : c ≤ r - 1 := by omega
    calc (r - 1) * c ≤ (r - 1) * (r - 1) := Nat.mul_le_mul le_rfl hle
      _ < n := ceilSqrt_pred_sq_lt n hn

lemma grid_17 : get_min_grid_size 17 = (5, 4) := by
  have hs : Nat.sqrt 17 = 4 := sqrt_eq_of_bounds 4 17 (by norm_num) (by norm_num)
  have hc : ceilSqrt 17 = 5 := by rw [ceilSqrt, hs]; norm_num
  rw [get_min_grid_size, if_neg (by norm_num)]
  simp only [hc]
  decide

lemma grid_16 : get_min_grid_size 16 = (4, 4) := by
  have hs : Nat.sqrt 16 = 4 := sqrt_eq_of_bounds 4 16 (by norm_num) (by norm_num)
  have hc : ceilSqrt 16 = 4 := by rw [ceilSqrt, hs]; norm_num
  rw [get_min_grid_size, if_neg (by norm_num)]
  simp only [hc]
  decide

lemma grid_1 : get_min_grid_size 1 = (1, 1) := by
  have hs : Nat.sqrt 1 = 1 := sqrt_eq_of_bounds 1 1 (by norm_num) (by norm_num)
  have hc : ceilSqrt 1 = 1 := by rw [ceilSqrt, hs]; norm_num
  rw [get_min_grid_size, if_neg (by norm_num)]
  simp only [hc]
  decide

lemma applyAutoGrid_fields (a : AppState α) :
    applyAutoGrid a =
      { a with
        columnsInput := (get_min_grid_size a.grid.images.length).1
        rowsInput := (get_min_grid_size a.grid.images.length).2 } := by
  unfold applyAutoGrid update_grid_constraints
  by_cases h0 : a.grid.images.length = 0
  · simp [h0]
  · have hn : 1 ≤ a.grid.images.length := by omega
    simp only [h0, if_neg, ite_false]
    have h1 : ceilDiv a.grid.images.length (get_min_grid_size a.grid.images.length).2 ≤
        (get_min_grid_size a.grid.images.length).1 :=
      ceilDiv_le_of_le_mul _ _ _ (grid_cols_pos _ hn) (grid_mul_ge _ hn)
    have h2 : ceilDiv a.grid.images.length (get_min_grid_size a.grid.images.length).1 ≤
        (get_min_grid_size a.grid.images.length).2 :=
      ceilDiv_le_of_le_mul _ _ _ (grid_rows_pos _ hn)
        (by rw [Nat.mul_comm]; exact grid_mul_ge _ hn)
    rw [Nat.max_eq_left h1, Nat.max_eq_left h2]

lemma autoSized_applyAutoGrid (a : AppState α) : autoSizedSwapped (applyAutoGrid a) := by
  rw [applyAutoGrid_fields]
  exact ⟨rfl, rfl, grid_cols_le_rows _⟩

lemma composeCells_length (cols rows cW cH : ℕ) :
    ∀ (l : List Pixmap) (start : ℕ),
      (composeCells cols rows cW cH l start).length =
        min l.length (cols * rows - start) := by
  intro l
  induction l with
  | nil => intro start; simp [composeCells]
  | cons p ps ih =>
    intro start
    unfold composeCells
    split
    · rename_i h
      simp only [List.length_nil, List.length_cons]
      omega
    · rename_i h
      simp only [List.length_cons, ih (start + 1)]
      omega

lemma composeCells_getElem? (cols rows cW cH : ℕ) :
    ∀ (l : List Pixmap) (start i : ℕ) (p : Pixmap),
      l[i]? = some p → start + i < cols * rows →
      (composeCells cols rows cW cH l start)[i]? =
        some ((start + i) % cols * cW, (start + i) / cols * cH,
          if p.width ≠ cW ∨ p.height ≠ cH then scaledTo p cW cH else p) := by
  intro l
  induction l with
  | nil => intro start i p hget; simp at hget
  | cons q ps ih =>
    intro start i p hget hlt
    unfold composeCells
    have hns : ¬ cols * rows ≤ start := by omega
    rw [if_neg hns]
    cases i with
    | zero =>
      rw [List.getElem?_cons_zero] at hget
      injection hget with hq
      subst hq
      simp
    | succ i =>
      rw [List.getElem?_cons_succ] at hget
      rw [List.getElem?_cons_succ]
      have := ih (start + 1) i p hget (by omega)
      have harith : start + 1 + i = start + (i + 1) := by omega
      rw [harith] at this
      exact this

lemma histInv_save_state (s : GridState α) (h : HistInv s) : HistInv (save_state s) := by
  have hlen := save_state_history_len s h
  have hr : (save_state s).redoStack.length = 0 := rfl
  have hm : (save_state s).maxHistory = s.maxHistory := rfl
  unfold HistInv
  omega

lemma histInv_append (s : GridState α) (xs : List α) (h : HistInv s) :
    HistInv (append_images s xs) := by
  rcases xs with _ | ⟨x, xs⟩
  · exact h
  · have h1 := histInv_save_state s h
    have e1 : (append_images s (x :: xs)).history = (save_state s).history := rfl
    have e2 : (append_images s (x :: xs)).redoStack = (save_state s).redoStack := rfl
    have e3 : (append_images s (x :: xs)).maxHistory = (save_state s).maxHistory := rfl
    unfold HistInv at h1 ⊢
    rw [e1, e2, e3]
    exact h1

lemma histInv_delete (s : GridState α) (h : HistInv s) : HistInv (delete_selected s) := by
  unfold delete_selected
  split
  · exact h
  · have h1 := histInv_save_state s h
    unfold HistInv at h1 ⊢
    exact h1

lemma histInv_handle_drop (s : GridState α) (str : List Char) (t : ℤ) (h : HistInv s) :
    HistInv (handle_drop s str t) := by
  have h1 := histInv_save_state s h
  unfold handle_drop
  rcases hp : (splitOnComma str).mapM pyToInt with _ | parsed
  · exact h1
  · have e1 : (applyParsed (save_state s) parsed t).history = (save_state s).history := rfl
    have e2 : (applyParsed (save_state s) parsed t).redoStack = (save_state s).redoStack := rfl
    have e3 : (applyParsed (save_state s) parsed t).maxHistory = (save_state s).maxHistory := rfl
    unfold HistInv at h1 ⊢
    rw [e1, e2, e3]
    exact h1

lemma histInv_undo (s : GridState α) (h : HistInv s) : HistInv (undo s) := by
  unfold undo
  rcases hl : s.history.getLast? with _ | prev
  · exact h
  · have hne : s.history ≠ [] := by
      intro he
      rw [he] at hl
      simp at hl
    have hpos : 1 ≤ s.history.length := List.length_pos.mpr hne
    unfold HistInv at h ⊢
    simp only [List.length_dropLast, List.length_append, List.length_singleton]
    omega

lemma histInv_redo (s : GridState α) (h : HistInv s) : HistInv (redo s) := by
  unfold redo
  rcases hl : s.redoStack.getLast? with _ | nxt
  · exact h
  · have hne : s.redoStack ≠ [] := by
      intro he
      rw [he] at hl
      simp at hl
    have hpos : 1 ≤ s.redoStack.length := List.length_pos.mpr hne
    unfold HistInv at h ⊢
    simp only [List.length_dropLast, List.length_append, List.length_singleton]
    omega

lemma histInv_add (s : GridState α) (xs : List α) : HistInv (add_images s xs) := by
  unfold HistInv add_images
  simp

lemma save_state_drop_oldest (s : GridState α) (hful : s.maxHistory ≤ s.history.length) :
    (save_state s).history = (s.history ++ [s.images]).drop 1 := by
  unfold save_state
  simp only
  rw [if_pos]
  simp only [List.length_append, List.length_singleton]
  omega

lemma suffix_of_suffix_length_le {l s1 s2 : List Char}
    (h1 : s1.isSuffixOf l) (h2 : s2.isSuffixOf l) (hlen : s1.length ≤ s2.length) :
    s1.isSuffixOf s2 := by
  rw [List.isSuffixOf_iff_suffix] at *
  rcases List.suffix_or_suffix_of_suffix h1 h2 with h | h
  · exact h
  · have hl2 : s2.length ≤ s1.length := List.IsSuffix.length_le h
    have heq : s2 = s1 := List.IsSuffix.eq_of_length_le h (by omega)
    rw [heq]

/-- C1: evaluation of `handle_drop` at its failing inputs.  Moving the
selected block `{0, 1}` of `[10, 20]` to target 2 must, per the spec, keep
the moved entries in their original relative order (result `[10, 20]`); the
code instead produces `[20, 10]`.  Likewise moving `{1, 2}` of
`[0, 1, 2, 3, 4]` to target 4 must give `[0, 3, 1, 2, 4]` but produces
`[0, 3, 2, 1, 4]`: the moved block lands contiguously at the adjusted target
(the selection correctly becomes `{2, 3}`) but in reversed relative order,
because the insertion loop inserts every extracted entry at the same
unincremented `target_index` (its loop variable `i` is computed and never
used). -/
theorem move_reverses_moved_block :
    (handle_drop gridAB ['0', ',', '1'] 2).images = [20, 10] ∧
    (handle_drop gridMid ['1', ',', '2'] 4).images = [0, 3, 2, 1, 4] ∧
    (handle_drop gridMid ['1', ',', '2'] 4).selected = [2, 3] := by
  decide

/-- C2: `get_min_grid_size` returns `(rows, cols)` with `rows * cols ≥ n`,
`(rows - 1) * cols < n` and `rows ≥ cols` for every image count `n ≥ 1`;
in particular 17 yields `(5, 4)`, 16 yields `(4, 4)` and 1 yields `(1, 1)`. -/
theorem min_grid_for_count_correct (n : ℕ) (hn : 1 ≤ n) :
    n ≤ (get_min_grid_size n).1 * (get_min_grid_size n).2 ∧
    ((get_min_grid_size n).1 - 1) * (get_min_grid_size n).2 < n ∧
    (get_min_grid_size n).2 ≤ (get_min_grid_size n).1 ∧
    get_min_grid_size 17 = (5, 4) ∧
    get_min_grid_size 16 = (4, 4) ∧
    get_min_grid_size 1 = (1, 1) :=
  ⟨grid_mul_ge n hn, grid_pred_lt n hn, grid_cols_le_rows n, grid_17, grid_16, grid_1⟩

/-- C2 witness: the bounds at the concrete count 17. -/
theorem min_grid_for_count_correct_witness :
    17 ≤ (get_min_grid_size 17).1 * (get_min_grid_size 17).2 ∧
    ((get_min_grid_size 17).1 - 1) * (get_min_grid_size 17).2 < 17 ∧
    (get_min_grid_size 17).2 ≤ (get_min_grid_size 17).1 ∧
    get_min_grid_size 17 = (5, 4) ∧
    get_min_grid_size 16 = (4, 4) ∧
    get_min_grid_size 1 = (1, 1) :=
  min_grid_for_count_correct 17 (by norm_num)

/-- C3: on a sequence whose entries all share the first entry's dimensions,
`export_compose` builds a `cellW * columns` by `cellH * rows` canvas, draws
exactly `min len (columns * rows)` cells (entries past the grid capacity are
never drawn), and places entry `idx` at
`(idx % columns * cellW, idx / columns * cellH)`; in particular four 64×64
entries at `columns = rows = 2, scale = 100` give a 128×128 canvas with the
four stated placements, and a fifth entry is silently dropped. -/
theorem compose_places_entries (images : List Pixmap) (p0 : Pixmap)
    (rest : List Pixmap) (cols rows scale : ℕ) (h0 : images = p0 :: rest)
    (hdim : ∀ q ∈ images, q.width = p0.width ∧ q.height = p0.height) :
    (∃ r, export_compose images cols rows scale = some r ∧
      r.canvasW = p0.width * cols ∧ r.canvasH = p0.height * rows ∧
      r.cells.length = min images.length (cols * rows) ∧
      ∀ i p, images[i]? = some p → i < cols * rows →
        r.cells[i]? = some (i % cols * p0.width, i / cols * p0.height, p)) ∧
    export_compose [cell64 0, cell64 1, cell64 2, cell64 3] 2 2 100 =
      some ⟨128, 128,
        [(0, 0, cell64 0), (64, 0, cell64 1), (0, 64, cell64 2), (64, 64, cell64 3)],
        128, 128⟩ ∧
    (export_compose [cell64 0, cell64 1, cell64 2, cell64 3, cell64 4] 2 2 100).map
      (fun r => r.cells.length) = some 4 := by
  refine ⟨?_, by decide, by decide⟩
  subst h0
  refine ⟨_, rfl, rfl, rfl, ?_, ?_⟩
  · simpa using composeCells_length cols rows p0.width p0.height (p0 :: rest) 0
  · intro i p hget hlt
    have hmem : p ∈ p0 :: rest := by
      obtain ⟨hl, rfl⟩ := List.getElem?_eq_some.mp hget
      exact List.getElem_mem hl
    have hd := hdim p hmem
    have hcell := composeCells_getElem? cols rows p0.width p0.height
      (p0 :: rest) 0 i p hget (by omega)
    simpa [hd.1, hd.2] using hcell

/-- C3 witness: the general placement statement instantiated at the four
64×64 entries with `columns = rows = 2`, `scale = 100`. -/
theorem compose_places_entries_witness :
    (∃ r, export_compose [cell64 0, cell64 1, cell64 2, cell64 3] 2 2 100 = some r ∧
      r.canvasW = (cell64 0).width * 2 ∧ r.canvasH = (cell64 0).height * 2 ∧
      r.cells.length = min ([cell64 0, cell64 1, cell64 2, cell64 3]).length (2 * 2) ∧
      ∀ i p, [cell64 0, cell64 1, cell64 2, cell64 3][i]? = some p → i < 2 * 2 →
        r.cells[i]? = some (i % 2 * (cell64 0).width, i / 2 * (cell64 0).height, p)) ∧
    export_compose [cell64 0, cell64 1, cell64 2, cell64 3] 2 2 100 =
      some ⟨128, 128,
        [(0, 0, cell64 0), (64, 0, cell64 1), (0, 64, cell64 2), (64, 64, cell64 3)],
        128, 128⟩ ∧
    (export_compose [cell64 0, cell64 1, cell64 2, cell64 3, cell64 4] 2 2 100).map
      (fun r => r.cells.length) = some 4 :=
  compose_places_entries _ (cell64 0) [cell64 1, cell64 2, cell64 3] 2 2 100 rfl
    (by decide)

/-- C4: appending a nonempty batch and undoing restores the prior order
exactly, redoing restores the appended order, and appending an empty batch
is a complete no-op (no snapshot, no mutation). -/
theorem append_then_undo_restores (s : GridState α) (xs : List α)
    (hxs : xs ≠ []) (hc : 1 ≤ s.maxHistory) :
    (undo (append_images s xs)).images = s.images ∧
    (redo (undo (append_images s xs))).images = s.images ++ xs ∧
    append_images s [] = s := by
  rcases xs with _ | ⟨x, xs⟩
  · exact absurd rfl hxs
  have h1 : (append_images s (x :: xs)).history.getLast? = some s.images := by
    show (save_state s).history.getLast? = some s.images
    exact getLast?_save_state s hc
  have h2 : (undo (append_images s (x :: xs))).images = s.images := by
    unfold undo
    rw [h1]
  have h3 : (undo (append_images s (x :: xs))).redoStack =
      [s.images ++ x :: xs] := by
    unfold undo
    rw [h1]
    rfl
  refine ⟨h2, ?_, rfl⟩
  unfold redo
  rw [h3]
  rfl

/-- C4 witness: the round trip at a concrete one-entry state. -/
theorem append_then_undo_restores_witness :
    ([9] : List ℕ) ≠ [] ∧ 1 ≤ gridOne.maxHistory ∧
    ((undo (append_images gridOne [9])).images = gridOne.images ∧
     (redo (undo (append_images gridOne [9]))).images = gridOne.images ++ [9] ∧
     append_images gridOne [] = gridOne) :=
  ⟨by decide, by decide, append_then_undo_restores gridOne [9] (by decide) (by decide)⟩

/-- C5: under the (inductively preserved) history invariant, the undo stack
never exceeds the cap after any operation; a push at the cap discards the
oldest entry (`pop(0)`) and keeps the newest (the snapshot just pushed ends
the stack). -/
theorem history_never_exceeds_cap (s : GridState α) (xs : List α)
    (str : List Char) (t : ℤ) (h : HistInv s) :
    s.history.length ≤ s.maxHistory ∧
    HistInv (save_state s) ∧ HistInv (append_images s xs) ∧
    HistInv (delete_selected s) ∧ HistInv (handle_drop s str t) ∧
    HistInv (undo s) ∧ HistInv (redo s) ∧ HistInv (add_images s xs) ∧
    (s.maxHistory ≤ s.history.length →
      (save_state s).history = (s.history ++ [s.images]).drop 1) ∧
    (1 ≤ s.maxHistory → (save_state s).history.getLast? = some s.images) := by
  refine ⟨?_, histInv_save_state s h, histInv_append s xs h, histInv_delete s h,
    histInv_handle_drop s str t h, histInv_undo s h, histInv_redo s h,
    histInv_add s xs, save_state_drop_oldest s, getLast?_save_state s⟩
  unfold HistInv at h
  omega

/-- C5 witness: the cap statement at a concrete state whose undo stack is at
its cap of 2. -/
theorem history_never_exceeds_cap_witness :
    HistInv (⟨[7], [], none, [[1], [2]], [], 2⟩ : GridState ℕ) ∧
    ((⟨[7], [], none, [[1], [2]], [], 2⟩ : GridState ℕ).history.length ≤ 2 ∧
     HistInv (save_state (⟨[7], [], none, [[1], [2]], [], 2⟩ : GridState ℕ)) ∧
     HistInv (append_images (⟨[7], [], none, [[1], [2]], [], 2⟩ : GridState ℕ) [9]) ∧
     HistInv (delete_selected (⟨[7], [], none, [[1], [2]], [], 2⟩ : GridState ℕ)) ∧
     HistInv (handle_drop (⟨[7], [], none, [[1], [2]], [], 2⟩ : GridState ℕ) ['0'] 0) ∧
     HistInv (undo (⟨[7], [], none, [[1], [2]], [], 2⟩ : GridState ℕ)) ∧
     HistInv (redo (⟨[7], [], none, [[1], [2]], [], 2⟩ : GridState ℕ)) ∧
     HistInv (add_images (⟨[7], [], none, [[1], [2]], [], 2⟩ : GridState ℕ) [9]) ∧
     (2 ≤ (⟨[7], [], none, [[1], [2]], [], 2⟩ : GridState ℕ).history.length →
       (save_state (⟨[7], [], none, [[1], [2]], [], 2⟩ : GridState ℕ)).history =
         (([[1], [2]] : List (List ℕ)) ++ [[7]]).drop 1) ∧
     (1 ≤ (2 : ℕ) →
       (save_state (⟨[7], [], none, [[1], [2]], [], 2⟩ : GridState ℕ)).history.getLast? =
         some [7])) :=
  ⟨by unfold HistInv; decide,
   history_never_exceeds_cap (⟨[7], [], none, [[1], [2]], [], 2⟩ : GridState ℕ)
     [9] ['0'] 0 (by unfold HistInv; decide)⟩

/-- C6 counterexample: `handle_drop` with the empty drag payload does change
a history stack — `save_state` runs before the payload parse fails, pushing
a snapshot and clearing the redo stack — so the claim's "both history stacks
are left unchanged" fails at this concrete state. -/
theorem empty_move_touches_history :
    ¬ ((handle_drop gridDrop [] 0).history = gridDrop.history ∧
       (handle_drop gridDrop [] 0).redoStack = gridDrop.redoStack) := by
  decide

/-- C6 (amended): appending an empty batch and deleting with an empty
selection are complete no-ops; moving with an empty source-index payload
leaves the sequence, the selection and the anchor unchanged (the parse error
is caught, nothing is mutated afterwards), but it has already pushed a
snapshot onto the undo stack and cleared the redo stack. -/
theorem empty_ops_behaviour (s : GridState α) (t : ℤ) (hsel : s.selected = []) :
    append_images s [] = s ∧
    delete_selected s = s ∧
    (handle_drop s [] t).images = s.images ∧
    (handle_drop s [] t).selected = s.selected ∧
    (handle_drop s [] t).lastSelected = s.lastSelected ∧
    (handle_drop s [] t).history = (save_state s).history ∧
    (handle_drop s [] t).redoStack = [] := by
  refine ⟨rfl, ?_, rfl, rfl, rfl, rfl, rfl⟩
  unfold delete_selected
  rw [if_pos hsel]

/-- C6 witness: the amended behaviour at a concrete one-entry state. -/
theorem empty_ops_behaviour_witness :
    gridOne.selected = [] ∧
    (append_images gridOne [] = gridOne ∧
     delete_selected gridOne = gridOne ∧
     (handle_drop gridOne [] 0).images = gridOne.images ∧
     (handle_drop gridOne [] 0).selected = gridOne.selected ∧
     (handle_drop gridOne [] 0).lastSelected = gridOne.lastSelected ∧
     (handle_drop gridOne [] 0).history = (save_state gridOne).history ∧
     (handle_drop gridOne [] 0).redoStack = []) :=
  ⟨rfl, empty_ops_behaviour gridOne 0 rfl⟩

/-- C7 counterexample: `select_single` performs no bounds check on the
selection set itself: at a one-entry sequence, selecting index 5 makes the
selection exactly `{5}`, violating the claimed invariant that every member is
a valid index below the sequence length. -/
theorem select_single_adds_out_of_range :
    (select_single gridOne 5).selected = [5] ∧
    ¬ SelInv (select_single gridOne 5) := by
  constructor
  · rfl
  · unfold SelInv
    decide

/-- C7 (amended): the selection-validity invariant is preserved by every
sequence-mutating operation (delete, append, undo, redo, replace-all, clear,
snapshot) — delete and the history operations clear the selection outright —
but the selection operations do not bounds-check: `select_single i` makes
the selection exactly `{i}` and `toggle_selection i` appends an unselected
`i` verbatim, even for `i ≥ len(images)` (no crash; only the thumbnail
highlight is skipped). -/
theorem selection_invariant_status (s : GridState α) (xs : List α) (i : ℤ)
    (h : SelInv s) :
    SelInv (delete_selected s) ∧ SelInv (append_images s xs) ∧ SelInv (undo s) ∧
    SelInv (redo s) ∧ SelInv (add_images s xs) ∧ SelInv (clear_selection s) ∧
    SelInv (save_state s) ∧
    (select_single s i).selected = [i] ∧
    (i ∉ s.selected → (toggle_selection s i).selected = s.selected ++ [i]) := by
  refine ⟨?_, ?_, ?_, ?_, ?_, ?_, h, rfl, ?_⟩
  · unfold delete_selected
    split
    · exact h
    · intro j hj
      simp at hj
  · rcases xs with _ | ⟨x, xs⟩
    · exact h
    · intro j hj
      have hh := h j hj
      refine ⟨hh.1, ?_⟩
      have hlen : ((append_images s (x :: xs)).images.length : ℤ) =
          (s.images.length : ℤ) + ((x :: xs).length : ℤ) := by
        show (((save_state s).images ++ x :: xs).length : ℤ) = _
        rw [List.length_append]
        push_cast
        rfl
      rw [hlen]
      have : (0 : ℤ) ≤ ((x :: xs).length : ℤ) := by positivity
      omega
  · unfold undo
    rcases hl : s.history.getLast? with _ | prev
    · exact h
    · intro j hj
      simp at hj
  · unfold redo
    rcases hl : s.redoStack.getLast? with _ | nxt
    · exact h
    · intro j hj
      simp at hj
  · intro j hj
    simp [add_images] at hj
  · intro j hj
    simp [clear_selection] at hj
  · intro hni
    unfold toggle_selection
    rw [if_neg hni]

/-- C7 witness: the amended statement at a concrete one-entry state. -/
theorem selection_invariant_status_witness :
    SelInv gridOne ∧
    (SelInv (delete_selected gridOne) ∧ SelInv (append_images gridOne [1]) ∧
     SelInv (undo gridOne) ∧ SelInv (redo gridOne) ∧
     SelInv (add_images gridOne [1]) ∧ SelInv (clear_selection gridOne) ∧
     SelInv (save_state gridOne) ∧
     (select_single gridOne 2).selected = [2] ∧
     ((2 : ℤ) ∉ gridOne.selected →
       (toggle_selection gridOne 2).selected = gridOne.selected ++ [2])) :=
  ⟨by unfold SelInv; decide, selection_invariant_status gridOne [1] 2 (by unfold SelInv; decide)⟩

/-- C8: deleting the selected indices `{1, 3}` from `[A, B, C, D, E]`
(encoded `[0, 1, 2, 3, 4]`) yields `[A, C, E]` (`[0, 2, 4]`), clears the
selection and the anchor, and a single undo restores the original order. -/
theorem delete_one_three_of_five :
    (delete_selected gridDelete).images = [0, 2, 4] ∧
    (delete_selected gridDelete).selected = [] ∧
    (delete_selected gridDelete).lastSelected = none ∧
    (undo (delete_selected gridDelete)).images = [0, 1, 2, 3, 4] := by
  decide

/-- C9: output-format selection is driven by the lower-cased extension of the
requested path; `.jpg`/`.jpeg` always encode as JPEG at fixed quality 95;
`.tga` encodes through the BGRA byte-order reinterpretation of the RGBA
buffer (which swaps the red and blue channel of every pixel); every
unrecognised extension falls back to PNG. -/
theorem format_selection_by_extension (path : List Char) :
    ((['.', 'j', 'p', 'g'].isSuffixOf (pyLower path) ∨
      ['.', 'j', 'p', 'e', 'g'].isSuffixOf (pyLower path)) →
      chooseEncode path = ⟨['J', 'P', 'E', 'G'], some 95, false⟩) ∧
    (['.', 't', 'g', 'a'].isSuffixOf (pyLower path) →
      chooseEncode path = ⟨['T', 'G', 'A'], none, true⟩) ∧
    (¬ (['.', 'j', 'p', 'g'].isSuffixOf (pyLower path) ∨
        ['.', 'j', 'p', 'e', 'g'].isSuffixOf (pyLower path) ∨
        ['.', 'p', 'n', 'g'].isSuffixOf (pyLower path) ∨
        ['.', 'w', 'e', 'b', 'p'].isSuffixOf (pyLower path) ∨
        ['.', 'b', 'm', 'p'].isSuffixOf (pyLower path) ∨
        ['.', 't', 'i', 'f', 'f'].isSuffixOf (pyLower path) ∨
        ['.', 't', 'i', 'f'].isSuffixOf (pyLower path) ∨
        ['.', 't', 'g', 'a'].isSuffixOf (pyLower path)) →
      chooseEncode path = ⟨['P', 'N', 'G'], none, false⟩) ∧
    (∀ r g b a rest, rgbaToBgra ((r, g, b, a) :: rest) = (b, g, r, a) :: rgbaToBgra rest) := by
  refine ⟨?_, ?_, ?_, fun r g b a rest => rfl⟩
  · intro hj
    unfold chooseEncode
    rw [if_pos hj]
  · intro htga
    unfold chooseEncode
    dsimp only
    split_ifs with h1 h2 h3 h4 h5
    · exfalso
      rcases h1 with hj | hj
      · exact absurd (suffix_of_suffix_length_le hj htga (by decide)) (by decide)
      · exact absurd (suffix_of_suffix_length_le htga hj (by decide)) (by decide)
    · exact absurd (suffix_of_suffix_length_le h2 htga (by decide)) (by decide)
    · exact absurd (suffix_of_suffix_length_le htga h3 (by decide)) (by decide)
    · exact absurd (suffix_of_suffix_length_le h4 htga (by decide)) (by decide)
    · exfalso
      rcases h5 with hf | hf
      · exact absurd (suffix_of_suffix_length_le htga hf (by decide)) (by decide)
      · exact absurd (suffix_of_suffix_length_le hf htga (by decide)) (by decide)
    · rfl
  · intro hnone
    push_neg at hnone
    obtain ⟨n1, n2, n3, n4, n5, n6, n7, n8⟩ := hnone
    unfold chooseEncode
    dsimp only
    rw [if_neg (by tauto), if_neg n3, if_neg n4, if_neg n5, if_neg (by tauto), if_neg n8]

/-- C9 witness: the three branches at concrete paths. -/
theorem format_selection_by_extension_witness :
    chooseEncode ['a', '.', 'J', 'P', 'G'] = ⟨['J', 'P', 'E', 'G'], some 95, false⟩ ∧
    chooseEncode ['a', '.', 't', 'g', 'a'] = ⟨['T', 'G', 'A'], none, true⟩ ∧
    chooseEncode ['a', '.', 'x', 'y', 'z'] = ⟨['P', 'N', 'G'], none, false⟩ :=
  ⟨(format_selection_by_extension ['a', '.', 'J', 'P', 'G']).1 (Or.inl (by decide)),
   (format_selection_by_extension ['a', '.', 't', 'g', 'a']).2.1 (by decide),
   (format_selection_by_extension ['a', '.', 'x', 'y', 'z']).2.2.1 (by decide)⟩

/-- C10: every auto-sizing caller (`undo`, `redo`, delete, add-images,
select-folder wrappers) unpacks `get_min_grid_size`'s `(rows, cols)` return
as `cols, rows`, so the applied column count is the helper's rows value and
the applied row count is the helper's cols value, making applied columns ≥
applied rows; seventeen images yield applied `columns = 5, rows = 4`. -/
theorem callers_unpack_swapped (a : AppState α) (xs : List α) (hxs : xs ≠ []) :
    autoSizedSwapped (app_undo a) ∧ autoSizedSwapped (app_redo a) ∧
    autoSizedSwapped (app_delete_selected_images a) ∧
    autoSizedSwapped (app_add_images a xs) ∧
    autoSizedSwapped (app_select_folder a xs) ∧
    (app_select_folder emptyApp seventeenImages).columnsInput = 5 ∧
    (app_select_folder emptyApp seventeenImages).rowsInput = 4 := by
  rcases xs with _ | ⟨x, xs⟩
  · exact absurd rfl hxs
  have h17c : (app_select_folder emptyApp seventeenImages).columnsInput =
      (get_min_grid_size 17).1 := by
    rw [show app_select_folder emptyApp seventeenImages =
      applyAutoGrid { emptyApp with grid := add_images emptyApp.grid seventeenImages }
      from rfl, applyAutoGrid_fields]
    rfl
  have h17r : (app_select_folder emptyApp seventeenImages).rowsInput =
      (get_min_grid_size 17).2 := by
    rw [show app_select_folder emptyApp seventeenImages =
      applyAutoGrid { emptyApp with grid := add_images emptyApp.grid seventeenImages }
      from rfl, applyAutoGrid_fields]
    rfl
  refine ⟨autoSized_applyAutoGrid _, autoSized_applyAutoGrid _,
    autoSized_applyAutoGrid _, autoSized_applyAutoGrid _,
    autoSized_applyAutoGrid _, ?_, ?_⟩
  · rw [h17c, grid_17]
  · rw [h17r, grid_17]

/-- C10 witness: the caller statement at the empty application state with a
one-image batch. -/
theorem callers_unpack_swapped_witness :
    ([1] : List ℕ) ≠ [] ∧
    (autoSizedSwapped (app_undo emptyApp) ∧ autoSizedSwapped (app_redo emptyApp) ∧
     autoSizedSwapped (app_delete_selected_images emptyApp) ∧
     autoSizedSwapped (app_add_images emptyApp [1]) ∧
     autoSizedSwapped (app_select_folder emptyApp [1]) ∧
     (app_select_folder emptyApp seventeenImages).columnsInput = 5 ∧
     (app_select_folder emptyApp seventeenImages).rowsInput = 4) :=
  ⟨by decide, callers_unpack_swapped emptyApp [1] (by decide)⟩

end Flipbook
